import Mathlib

/-!
# Verification of `service-worker.js` (APP-REGISTRO-COMENSALES)

A shallow embedding of the offline-caching service worker:
the install, activate, fetch and message handlers, over an explicit
model of the browser's cache storage and of the network.

Caches are association lists from request URL to stored response
(requests are effectively GET-only in every cached path); the cache
storage is an association list from cache name to cache, in creation
order; the network is a function from URL to `Option Response`
(`none` models a rejected fetch).
-/

namespace SW

/-! ## String helpers

`isPrefixL`/`isInfixL` model JavaScript's `String.prototype.startsWith`
and `String.prototype.includes` on lists of characters, so that every
check evaluates by `decide`/`rfl` on concrete inputs. -/

def isPrefixL : List Char → List Char → Bool
  | [], _ => true
  | _ :: _, [] => false
  | a :: as, b :: bs => a == b && isPrefixL as bs

def isInfixL (p : List Char) : List Char → Bool
  | [] => p.isEmpty
  | a :: rest => isPrefixL p (a :: rest) || isInfixL p rest

/-- JavaScript `s.startsWith(p)`. -/
def strStartsWith (s p : String) : Bool := isPrefixL p.toList s.toList

/-- JavaScript `s.includes(p)`. -/
def strIncludes (s p : String) : Bool := isInfixL p.toList s.toList

/-- Resolution of a relative URL (`'./x'`) against the worker's origin,
as the browser does for `cache.addAll` / `caches.match` arguments. -/
def resolveURL (origin u : String) : String :=
  if strStartsWith u "./" then origin ++ String.mk (u.toList.drop 1) else u

/-! ## Data model -/

/-- An HTTP response as the worker observes it: status code, response
type (`"basic"`, `"cors"`, `"error"`, ...) and body. -/
structure Response where
  status : Nat
  rtype : String
  body : String
deriving DecidableEq, Repr

/-- A request: method and URL. -/
structure Request where
  method : String
  url : String
deriving DecidableEq, Repr

/-- A named cache's contents: URL-keyed association list of responses. -/
abbrev Cache := List (String × Response)

/-- The browser's cache storage: name-keyed caches in creation order. -/
abbrev CacheStorage := List (String × Cache)

/-- The network: `none` models a fetch that rejects (network failure). -/
abbrev Network := String → Option Response

/-- `cache.match(url)`. -/
def cacheMatch (c : Cache) (url : String) : Option Response :=
  (c.find? (fun e => e.1 == url)).map (·.2)

/-- `cache.put(request, response)`: overwrites any entry for the URL. -/
def cachePut (c : Cache) (url : String) (r : Response) : Cache :=
  c.filter (fun e => e.1 ≠ url) ++ [(url, r)]

/-- `cache.keys()` as the list of cached request URLs, in order. -/
def cacheKeys (c : Cache) : List String := c.map (·.1)

/-- The cache registered in the storage under `name`, when it exists. -/
def lookupCache (st : CacheStorage) (name : String) : Option Cache :=
  (st.find? (fun e => e.1 == name)).map (·.2)

/-- Replace the contents of the cache named `name` (which must exist). -/
def storeCache (st : CacheStorage) (name : String) (c : Cache) : CacheStorage :=
  st.map (fun e => if e.1 == name then (e.1, c) else e)

/-- `caches.open(name)`: returns the named cache, creating it (empty, at
the end of the storage) when absent. -/
def cachesOpen (st : CacheStorage) (name : String) : CacheStorage × Cache :=
  match lookupCache st name with
  | some c => (st, c)
  | none => (st ++ [(name, [])], [])

/-- `caches.match(url)`: the first match across all caches, in order. -/
def cachesMatch (st : CacheStorage) (url : String) : Option Response :=
  match st with
  | [] => none
  | (_, c) :: rest =>
    match cacheMatch c url with
    | some r => some r
    | none => cachesMatch rest url

/-- `caches.open(name)` followed by `cache.put(url, r)` on the result. -/
def storagePut (st : CacheStorage) (name url : String) (r : Response) : CacheStorage :=
  storeCache (cachesOpen st name).1 name (cachePut (cachesOpen st name).2 url r)

/-- The names of all existing caches (`caches.keys()`). -/
def cacheNames (st : CacheStorage) : List String := st.map (·.1)

/-! ## Worker constants (from the source) -/

def CACHE_NAME : String := "registro-escuadrones-v1"

def CACHE_OFFLINE : String := "registro-escuadrones-offline-v1"

def FONT_URL : String :=
  "https://fonts.googleapis.com/css2?family=Syne:wght@400;700;800&family=DM+Mono:wght@400;500&family=Newsreader:ital,wght@0,400;0,600;1,400&display=swap"

/-- The declared asset list (`ASSETS_TO_CACHE`). -/
def ASSETS_TO_CACHE : List String :=
  ["./comensales.html", "./manifest.json", "./icon-192.png", "./icon-512.png", FONT_URL]

/-- The assets the install handler actually passes to `cache.addAll`. -/
def MANDATORY_INSTALL_ASSETS : List String :=
  ["./comensales.html", "./manifest.json"]

def OFFLINE_FALLBACK : String := "./comensales.html"

/-- `Response.ok`: status in the 200-299 range, as `cache.addAll` and
`cache.add` require for a successful store. -/
def respOk (r : Response) : Bool := 200 ≤ r.status && r.status ≤ 299

/-! ## Install handler -/

/-- `cache.addAll(urls)`: fetches each URL (already resolved) and stores
it; rejects (returns `none`) when any fetch fails or is not `ok`. -/
def cacheAddAll (net : Network) (c : Cache) : List String → Option Cache
  | [] => some c
  | u :: us =>
    match net u with
    | none => none
    | some r => if respOk r then cacheAddAll net (cachePut c u r) us else none

/-- The `install` event handler: open the main cache, `addAll` the two
hardcoded mandatory assets (failure aborts install: result `none`), then
try to `add` the Google-Fonts stylesheet with failure swallowed. -/
def install (origin : String) (net : Network) (st : CacheStorage) : Option CacheStorage :=
  match cacheAddAll net (cachesOpen st CACHE_NAME).2
      (MANDATORY_INSTALL_ASSETS.map (resolveURL origin)) with
  | none => none
  | some c1 =>
    let c2 :=
      match net FONT_URL with
      | some r => if respOk r then cachePut c1 FONT_URL r else c1
      | none => c1
    some (storeCache (cachesOpen st CACHE_NAME).1 CACHE_NAME c2)

/-! ## Activate handler -/

/-- The `activate` event handler: delete every cache whose name is
neither `CACHE_NAME` nor `CACHE_OFFLINE`. -/
def activate (st : CacheStorage) : CacheStorage :=
  st.filter (fun e => e.1 == CACHE_NAME || e.1 == CACHE_OFFLINE)

/-! ## Fetch handler -/

/-- What the fetch handler does with an event: either it returns without
calling `respondWith` (the request passes through to the network,
unintercepted), or `respondWith` is called with a promise that resolves
to `r` (`none` models resolving with `undefined`). -/
inductive FetchOutcome where
  | passThrough
  | respond (r : Option Response)
deriving DecidableEq, Repr

/-- Result of one fetch event: the outcome delivered to the caller and
the cache storage after all writes (including the fire-and-forget
background refresh, which eventually settles) have been applied. -/
structure FetchResult where
  outcome : FetchOutcome
  storage : CacheStorage
deriving DecidableEq, Repr

/-- The `shouldCache` test of the miss branch: substring (`includes`)
checks against the worker's origin and the two font host names. -/
def shouldCache (origin url : String) : Bool :=
  strIncludes url origin || strIncludes url "fonts.googleapis.com" ||
    strIncludes url "fonts.gstatic.com"

/-- The `fetch` event handler. Non-GET methods and URLs not starting
with `"http"` pass through. On a cache hit the cached response is
returned and a background refresh stores any status-200 network response
into the main cache. On a miss, a network response is returned as-is,
stored first when it is status 200, not error-typed, and `shouldCache`
holds; when the fetch rejects, `caches.match(OFFLINE_FALLBACK)` is
returned. -/
def handleFetch (origin : String) (net : Network) (st : CacheStorage)
    (req : Request) : FetchResult :=
  if req.method ≠ "GET" then ⟨.passThrough, st⟩
  else if ¬ strStartsWith req.url "http" then ⟨.passThrough, st⟩
  else
    match cachesMatch st req.url with
    | some cached =>
      let st' :=
        match net req.url with
        | some nr => if nr.status == 200 then storagePut st CACHE_NAME req.url nr else st
        | none => st
      ⟨.respond (some cached), st'⟩
    | none =>
      match net req.url with
      | some nr =>
        if nr.status ≠ 200 ∨ nr.rtype = "error" then ⟨.respond (some nr), st⟩
        else if shouldCache origin req.url then
          ⟨.respond (some nr), storagePut st CACHE_NAME req.url nr⟩
        else ⟨.respond (some nr), st⟩
      | none => ⟨.respond (cachesMatch st (resolveURL origin OFFLINE_FALLBACK)), st⟩

/-! ## Message handler -/

/-- Reply shape of `GET_CACHE_STATUS`. -/
structure CacheStatusReply where
  cached : List String
  count : Nat
deriving DecidableEq, Repr

/-- Observable outcome of one message event. `threw` models the
`TypeError` raised when `event.ports[0]` is `undefined`. -/
inductive MsgOutcome where
  | ignored
  | skipWaitingCalled
  | replied (r : CacheStatusReply)
  | threw
deriving DecidableEq, Repr

/-- The `message` event handler. `data` is `event.data && event.data.type`
(`none`: no data or no usable type). `nports` is `event.ports.length`;
`GET_CACHE_STATUS` posts on `event.ports[0]`, which throws when the
port list is empty. -/
def handleMessage (st : CacheStorage) (data : Option String) (nports : Nat) :
    MsgOutcome × CacheStorage :=
  match data with
  | none => (.ignored, st)
  | some t =>
    if t = "SKIP_WAITING" then (.skipWaitingCalled, st)
    else if t = "GET_CACHE_STATUS" then
      if nports = 0 then (.threw, (cachesOpen st CACHE_NAME).1)
      else
        (.replied ⟨cacheKeys (cachesOpen st CACHE_NAME).2,
          (cacheKeys (cachesOpen st CACHE_NAME).2).length⟩, (cachesOpen st CACHE_NAME).1)
    else (.ignored, st)

/-! ## Spec-worded definitions (for refinement comparisons)

These follow the spec's words, not the source, and are only compared
against the source-derived definitions above. -/

/-- The scheme of a URL: everything before the first colon. -/
def schemeOf (url : String) : String :=
  String.mk (url.toList.takeWhile (fun ch => ch ≠ ':'))

/-- The host of an http(s) URL: what stands between the `//` and the
next slash. -/
def hostOf (url : String) : String :=
  let rest :=
    if strStartsWith url "https://" then String.mk (url.toList.drop 8)
    else if strStartsWith url "http://" then String.mk (url.toList.drop 7)
    else url
  String.mk (rest.toList.takeWhile (fun ch => ch ≠ '/'))

/-- The spec's cacheability wording: "the request URL belongs to the
worker's own origin, or to either of two approved external font-serving
hosts". Membership of the origin or of a host, not a substring test. -/
def belongsToApprovedOrigin (origin url : String) : Bool :=
  strStartsWith url (origin ++ "/") || url == origin ||
    hostOf url == "fonts.googleapis.com" || hostOf url == "fonts.gstatic.com"

/-! ## Trace semantics

Events the active worker serves, and the states reachable from a fresh
installation (a storage in which this version's two cache names do not
exist yet) followed by activation. -/

/-- One event served by the worker after installation. -/
inductive Event where
  | fetchEv (net : Network) (req : Request)
  | msgEv (data : Option String) (nports : Nat)
  | activateEv

/-- The cache-storage effect of one event. -/
def stepState (origin : String) (st : CacheStorage) : Event → CacheStorage
  | .fetchEv net req => (handleFetch origin net st req).storage
  | .msgEv d n => (handleMessage st d n).2
  | .activateEv => activate st

/-- Cache storages reachable by this worker: a successful install into a
storage not yet holding this version's caches, activation, then any
sequence of fetch, message and activate events. -/
inductive Reachable (origin : String) : CacheStorage → Prop where
  | installed (net : Network) (st0 st1 : CacheStorage)
      (h0 : lookupCache st0 CACHE_NAME = none)
      (h1 : lookupCache st0 CACHE_OFFLINE = none)
      (hinst : install origin net st0 = some st1) :
      Reachable origin (activate st1)
  | step (st : CacheStorage) (e : Event) (h : Reachable origin st) :
      Reachable origin (stepState origin st e)

/-- The entries of the main cache (empty when it does not exist). -/
def mainEntries (st : CacheStorage) : Cache :=
  (lookupCache st CACHE_NAME).getD []

/-- The request URLs stored in the main cache. -/
def mainKeys (st : CacheStorage) : List String :=
  cacheKeys (mainEntries st)

/-- The state invariant maintained by the worker: the storage holds
exactly the main cache, the offline-fallback URL is one of its keys, and
every key passes the `shouldCache` test. -/
def Invar (origin : String) (st : CacheStorage) : Prop :=
  ∃ c : Cache, st = [(CACHE_NAME, c)] ∧
    (∃ r, (resolveURL origin OFFLINE_FALLBACK, r) ∈ c) ∧
    ∀ e ∈ c, shouldCache origin e.1 = true

/-! ## Helper lemmas -/

theorem isPrefixL_append (p rest : List Char) : isPrefixL p (p ++ rest) = true := by
  induction p with
  | nil => rfl
  | cons a as ih => simp [isPrefixL, ih]

theorem isInfixL_append_right (p rest : List Char) : isInfixL p (p ++ rest) = true := by
  cases p with
  | nil =>
    cases rest with
    | nil => rfl
    | cons b bs => simp [isInfixL, isPrefixL]
  | cons a as =>
    have h := isPrefixL_append (a :: as) rest
    simp only [List.cons_append] at h ⊢
    simp [isInfixL, h]

theorem strIncludes_append_left (origin s : String) :
    strIncludes (origin ++ s) origin = true := by
  have h : (origin ++ s).toList = origin.toList ++ s.toList := by
    simp [String.toList]
  simp [strIncludes, h, isInfixL_append_right]

/-- Every URL the worker's origin is appended to passes `shouldCache`. -/
theorem shouldCache_origin_append (origin s : String) :
    shouldCache origin (origin ++ s) = true := by
  simp [shouldCache, strIncludes_append_left]

theorem shouldCache_font : ∀ origin, shouldCache origin FONT_URL = true := by
  intro origin
  have h : strIncludes FONT_URL "fonts.googleapis.com" = true := by decide
  simp [shouldCache, h]

theorem mem_cachePut {e : String × Response} {c : Cache} {u : String} {r : Response}
    (h : e ∈ cachePut c u r) : e ∈ c ∨ e = (u, r) := by
  simp only [cachePut, List.mem_append, List.mem_filter, List.mem_singleton] at h
  rcases h with h | h
  · exact Or.inl h.1
  · exact Or.inr h

theorem mem_keys_cachePut_self (c : Cache) (u : String) (r : Response) :
    u ∈ cacheKeys (cachePut c u r) := by
  simp [cacheKeys, cachePut]

theorem mem_keys_cachePut_of_mem {c : Cache} {u v : String} (r : Response)
    (h : u ∈ cacheKeys c) : u ∈ cacheKeys (cachePut c v r) := by
  by_cases huv : u = v
  · subst huv; exact mem_keys_cachePut_self c u r
  · simp only [cacheKeys, List.mem_map] at h
    obtain ⟨e, he, hu⟩ := h
    simp only [cacheKeys, cachePut, List.map_append, List.mem_append, List.mem_map]
    left
    refine ⟨e, ?_, hu⟩
    simp only [List.mem_filter, decide_eq_true_eq]
    exact ⟨he, by rw [hu]; exact huv⟩

theorem mem_entry_of_cacheMatch {c : Cache} {url : String} {r : Response}
    (h : cacheMatch c url = some r) : (url, r) ∈ c := by
  unfold cacheMatch at h
  cases hf : c.find? (fun e => e.1 == url) with
  | none => rw [hf] at h; simp at h
  | some e =>
    rw [hf] at h
    simp only [Option.map_some'] at h
    have hmem := List.mem_of_find?_eq_some hf
    have hkey := List.find?_some hf
    have he : e = (url, r) := by
      obtain ⟨a, b⟩ := e
      simp only [beq_iff_eq] at hkey
      simp only [Option.some.injEq] at h
      simp [hkey, h]
    rwa [he] at hmem

theorem cacheMatch_isSome_of_mem {c : Cache} {url : String} {r : Response}
    (h : (url, r) ∈ c) : ∃ x, cacheMatch c url = some x := by
  simp only [cacheMatch]
  have : ∃ e, c.find? (fun e => e.1 == url) = some e := by
    rw [← Option.isSome_iff_exists]
    rw [List.find?_isSome]
    exact ⟨(url, r), h, by simp⟩
  obtain ⟨e, he⟩ := this
  exact ⟨e.2, by simp [he]⟩

/-- `caches.match` over the single-cache storage. -/
theorem cachesMatch_single (n : String) (c : Cache) (url : String) :
    cachesMatch [(n, c)] url = cacheMatch c url := by
  simp only [cachesMatch]
  cases cacheMatch c url <;> rfl

/-- `storagePut` into the single-cache storage. -/
theorem storagePut_single (c : Cache) (u : String) (r : Response) :
    storagePut [(CACHE_NAME, c)] CACHE_NAME u r = [(CACHE_NAME, cachePut c u r)] := by
  simp [storagePut, cachesOpen, lookupCache, List.find?, storeCache]

theorem exists_entry_of_mem_keys {c : Cache} {u : String} (h : u ∈ cacheKeys c) :
    ∃ r, (u, r) ∈ c := by
  simp only [cacheKeys, List.mem_map] at h
  obtain ⟨⟨a, b⟩, he, rfl⟩ := h
  exact ⟨b, he⟩

theorem names_ne_of_lookup_none {st : CacheStorage} {n : String}
    (h : lookupCache st n = none) : ∀ e ∈ st, ¬ e.1 = n := by
  intro e he
  unfold lookupCache at h
  rw [Option.map_eq_none'] at h
  have := List.find?_eq_none.mp h e he
  simpa using this

theorem activate_cons (e : String × Cache) (rest : CacheStorage) :
    activate (e :: rest) =
      if (e.1 == CACHE_NAME || e.1 == CACHE_OFFLINE) = true then e :: activate rest
      else activate rest := by
  simp [activate, List.filter_cons]

theorem lookupCache_cons (e : String × Cache) (l : CacheStorage) (n : String) :
    lookupCache (e :: l) n = if (e.1 == n) = true then some e.2 else lookupCache l n := by
  by_cases h : (e.1 == n) = true
  · simp [lookupCache, List.find?_cons_of_pos _ h, h]
  · simp [lookupCache, List.find?_cons_of_neg _ h, h]

/-- Activation keeps exactly the two protected names, untouched, and
deletes everything else. -/
theorem lookupCache_activate (st : CacheStorage) (n : String) :
    lookupCache (activate st) n =
      if (n == CACHE_NAME || n == CACHE_OFFLINE) = true then lookupCache st n
      else none := by
  induction st with
  | nil => simp [activate, lookupCache]
  | cons e rest ih =>
    rw [activate_cons]
    by_cases h1 : e.1 = n
    · subst h1
      by_cases h2 : (e.1 == CACHE_NAME || e.1 == CACHE_OFFLINE) = true
      · rw [if_pos h2]
        simp [lookupCache_cons, h2]
      · rw [if_neg h2]
        simp [ih, h2]
    · have hne : (e.1 == n) = false := by simp [h1]
      by_cases h2 : (e.1 == CACHE_NAME || e.1 == CACHE_OFFLINE) = true
      · rw [if_pos h2]
        simp [lookupCache_cons, hne, ih]
      · rw [if_neg h2]
        simp [lookupCache_cons, hne, ih]

theorem storeCache_append_fresh (st0 : CacheStorage) (c : Cache)
    (h0 : lookupCache st0 CACHE_NAME = none) :
    storeCache (st0 ++ [(CACHE_NAME, [])]) CACHE_NAME c = st0 ++ [(CACHE_NAME, c)] := by
  have hid : ∀ e ∈ st0,
      (if (e.1 == CACHE_NAME) = true then (e.1, c) else e) = id e := by
    intro e he
    exact if_neg (by simp [names_ne_of_lookup_none h0 e he])
  unfold storeCache
  rw [List.map_append, List.map_congr_left hid, List.map_id]
  simp

theorem activate_append_fresh (st0 : CacheStorage) (c : Cache)
    (h0 : lookupCache st0 CACHE_NAME = none)
    (h1 : lookupCache st0 CACHE_OFFLINE = none) :
    activate (st0 ++ [(CACHE_NAME, c)]) = [(CACHE_NAME, c)] := by
  unfold activate
  rw [List.filter_append]
  have hdrop : st0.filter (fun e => e.1 == CACHE_NAME || e.1 == CACHE_OFFLINE) = [] := by
    rw [List.filter_eq_nil_iff]
    intro e he
    simp [names_ne_of_lookup_none h0 e he, names_ne_of_lookup_none h1 e he]
  rw [hdrop]
  simp

theorem resolveURL_comensales (origin : String) :
    resolveURL origin "./comensales.html" = origin ++ "/comensales.html" := by
  rfl

theorem resolveURL_manifest (origin : String) :
    resolveURL origin "./manifest.json" = origin ++ "/manifest.json" := by
  rfl

theorem resolveURL_fallback (origin : String) :
    resolveURL origin OFFLINE_FALLBACK = origin ++ "/comensales.html" := by
  rfl

theorem mem_keys_of_entry {c : Cache} {u : String} {r : Response}
    (h : (u, r) ∈ c) : u ∈ cacheKeys c := by
  simp only [cacheKeys, List.mem_map]
  exact ⟨(u, r), h, rfl⟩

theorem cacheAddAll_keys_mono {net : Network} {c c' : Cache} {us : List String}
    (h : cacheAddAll net c us = some c') {u : String} (hu : u ∈ cacheKeys c) :
    u ∈ cacheKeys c' := by
  induction us generalizing c with
  | nil => unfold cacheAddAll at h; cases h; exact hu
  | cons v vs ih =>
    unfold cacheAddAll at h
    cases hnv : net v with
    | none => simp only [hnv] at h; cases h
    | some r =>
      simp only [hnv] at h
      by_cases hok : respOk r = true
      · rw [if_pos hok] at h
        exact ih h (mem_keys_cachePut_of_mem r hu)
      · rw [if_neg hok] at h; cases h

theorem cacheAddAll_mem_keys {net : Network} {c c' : Cache} {us : List String}
    (h : cacheAddAll net c us = some c') : ∀ u ∈ us, u ∈ cacheKeys c' := by
  induction us generalizing c with
  | nil => intro u hu; cases hu
  | cons v vs ih =>
    intro u hu
    unfold cacheAddAll at h
    cases hnv : net v with
    | none => simp only [hnv] at h; cases h
    | some r =>
      simp only [hnv] at h
      by_cases hok : respOk r = true
      · rw [if_pos hok] at h
        rcases List.mem_cons.mp hu with rfl | hu'
        · exact cacheAddAll_keys_mono h (mem_keys_cachePut_self c u r)
        · exact ih h u hu'
      · rw [if_neg hok] at h; cases h

theorem cacheAddAll_mem_entries {net : Network} {c c' : Cache} {us : List String}
    (h : cacheAddAll net c us = some c') : ∀ e ∈ c', e ∈ c ∨ e.1 ∈ us := by
  induction us generalizing c with
  | nil => unfold cacheAddAll at h; cases h; exact fun e he => Or.inl he
  | cons v vs ih =>
    unfold cacheAddAll at h
    cases hnv : net v with
    | none => simp only [hnv] at h; cases h
    | some r =>
      simp only [hnv] at h
      by_cases hok : respOk r = true
      · rw [if_pos hok] at h
        intro e he
        rcases ih h e he with hin | hin
        · rcases mem_cachePut hin with h2 | h2
          · exact Or.inl h2
          · right; rw [h2]; exact List.mem_cons_self v vs
        · exact Or.inr (List.mem_cons_of_mem v hin)
      · rw [if_neg hok] at h; cases h

/-- A successful installation followed by activation establishes the
worker's state invariant. -/
theorem install_invar (origin : String) (net : Network) (st0 st1 : CacheStorage)
    (h0 : lookupCache st0 CACHE_NAME = none)
    (h1 : lookupCache st0 CACHE_OFFLINE = none)
    (hinst : install origin net st0 = some st1) :
    Invar origin (activate st1) := by
  simp only [install, cachesOpen, h0, MANDATORY_INSTALL_ASSETS, List.map_cons, List.map_nil,
    resolveURL_comensales, resolveURL_manifest] at hinst
  cases hall : cacheAddAll net []
      [origin ++ "/comensales.html", origin ++ "/manifest.json"] with
  | none => rw [hall] at hinst; cases hinst
  | some c1 =>
    rw [hall] at hinst
    simp only [] at hinst
    have hkey1 : origin ++ "/comensales.html" ∈ cacheKeys c1 :=
      cacheAddAll_mem_keys hall _ (by simp)
    have hsc1 : ∀ e ∈ c1, shouldCache origin e.1 = true := by
      intro e he
      rcases cacheAddAll_mem_entries hall e he with h | h
      · cases h
      · rcases List.mem_cons.mp h with h2 | h2
        · rw [h2]; exact shouldCache_origin_append origin "/comensales.html"
        · rcases List.mem_cons.mp h2 with h3 | h3
          · rw [h3]; exact shouldCache_origin_append origin "/manifest.json"
          · cases h3
    have conclude : ∀ c2 : Cache,
        (origin ++ "/comensales.html") ∈ cacheKeys c2 →
        (∀ e ∈ c2, shouldCache origin e.1 = true) →
        Invar origin (activate (storeCache (st0 ++ [(CACHE_NAME, [])]) CACHE_NAME c2)) := by
      intro c2 hk hsc
      rw [storeCache_append_fresh _ _ h0, activate_append_fresh _ _ h0 h1]
      refine ⟨c2, rfl, ?_, hsc⟩
      rw [resolveURL_fallback]
      exact exists_entry_of_mem_keys hk
    cases hfont : net FONT_URL with
    | none =>
      simp only [hfont] at hinst
      injection hinst with hs
      subst hs
      exact conclude c1 hkey1 hsc1
    | some rf =>
      simp only [hfont] at hinst
      by_cases hok : respOk rf = true
      · rw [if_pos hok] at hinst
        injection hinst with hs
        subst hs
        refine conclude _ (mem_keys_cachePut_of_mem rf hkey1) ?_
        intro e he
        rcases mem_cachePut he with h2 | h2
        · exact hsc1 e h2
        · rw [h2]; exact shouldCache_font origin
      · rw [if_neg hok] at hinst
        injection hinst with hs
        subst hs
        exact conclude c1 hkey1 hsc1

/-- Adding a `shouldCache`-approved entry to the main cache preserves the
invariant. -/
theorem invar_put (origin : String) (c : Cache) (u : String) (r : Response)
    (hfb : ∃ x, (resolveURL origin OFFLINE_FALLBACK, x) ∈ c)
    (hsc : ∀ e ∈ c, shouldCache origin e.1 = true)
    (hu : shouldCache origin u = true) :
    Invar origin [(CACHE_NAME, cachePut c u r)] := by
  refine ⟨cachePut c u r, rfl, ?_, ?_⟩
  · obtain ⟨x, hx⟩ := hfb
    exact exists_entry_of_mem_keys (mem_keys_cachePut_of_mem r (mem_keys_of_entry hx))
  · intro e he
    rcases mem_cachePut he with h2 | h2
    · exact hsc e h2
    · rw [h2]; exact hu

/-- Every event the active worker serves preserves the invariant. -/
theorem invar_step (origin : String) (st : CacheStorage) (e : Event)
    (h : Invar origin st) : Invar origin (stepState origin st e) := by
  obtain ⟨c, rfl, hfb, hsc⟩ := h
  cases e with
  | activateEv =>
    refine ⟨c, ?_, hfb, hsc⟩
    simp [stepState, activate_cons, activate]
  | msgEv d n =>
    have hopen : cachesOpen [(CACHE_NAME, c)] CACHE_NAME = ([(CACHE_NAME, c)], c) := by
      simp [cachesOpen, lookupCache, List.find?]
    refine ⟨c, ?_, hfb, hsc⟩
    cases d with
    | none => simp [stepState, handleMessage]
    | some t =>
      by_cases h1 : t = "SKIP_WAITING"
      · simp [stepState, handleMessage, h1]
      · by_cases h2 : t = "GET_CACHE_STATUS"
        · by_cases h3 : n = 0 <;> simp [stepState, handleMessage, h1, h2, h3, hopen]
        · simp [stepState, handleMessage, h1, h2]
  | fetchEv net req =>
    simp only [stepState]
    by_cases hm : req.method = "GET"
    case neg => exact ⟨c, by simp [handleFetch, hm], hfb, hsc⟩
    by_cases hh : strStartsWith req.url "http" = true
    case neg => exact ⟨c, by simp [handleFetch, hm, hh], hfb, hsc⟩
    cases hcm : cacheMatch c req.url with
    | some cached =>
      have hscu : shouldCache origin req.url = true :=
        hsc _ (mem_entry_of_cacheMatch hcm)
      cases hn : net req.url with
      | none =>
        exact ⟨c, by simp [handleFetch, hm, hh, cachesMatch_single, hcm, hn], hfb, hsc⟩
      | some nr =>
        by_cases hs200 : (nr.status == 200) = true
        · have hst : (handleFetch origin net [(CACHE_NAME, c)] req).storage
              = [(CACHE_NAME, cachePut c req.url nr)] := by
            simp [handleFetch, hm, hh, cachesMatch_single, hcm, hn, hs200, storagePut_single]
          rw [hst]
          exact invar_put origin c req.url nr hfb hsc hscu
        · exact ⟨c, by simp [handleFetch, hm, hh, cachesMatch_single, hcm, hn, hs200],
            hfb, hsc⟩
    | none =>
      cases hn : net req.url with
      | none =>
        exact ⟨c, by simp [handleFetch, hm, hh, cachesMatch_single, hcm, hn], hfb, hsc⟩
      | some nr =>
        by_cases hbad : nr.status ≠ 200 ∨ nr.rtype = "error"
        · exact ⟨c, by simp [handleFetch, hm, hh, cachesMatch_single, hcm, hn, hbad],
            hfb, hsc⟩
        · by_cases hscu : shouldCache origin req.url = true
          · have hst : (handleFetch origin net [(CACHE_NAME, c)] req).storage
                = [(CACHE_NAME, cachePut c req.url nr)] := by
              simp [handleFetch, hm, hh, cachesMatch_single, hcm, hn, hbad, hscu,
                storagePut_single]
            rw [hst]
            exact invar_put origin c req.url nr hfb hsc hscu
          · exact ⟨c, by simp [handleFetch, hm, hh, cachesMatch_single, hcm, hn, hbad, hscu],
              hfb, hsc⟩

/-- Every reachable state satisfies the invariant. -/
theorem reachable_invar {origin : String} {st : CacheStorage}
    (h : Reachable origin st) : Invar origin st := by
  induction h with
  | installed net st0 st1 h0 h1 hinst => exact install_invar origin net st0 st1 h0 h1 hinst
  | step st e h ih => exact invar_step origin st e ih

theorem lookupCache_append_fresh {st : CacheStorage} {n : String} (c : Cache)
    (h : lookupCache st n = none) :
    lookupCache (st ++ [(n, c)]) n = some c := by
  unfold lookupCache at h ⊢
  rw [Option.map_eq_none'] at h
  rw [List.find?_append, h]
  simp

theorem mainEntries_single (c : Cache) : mainEntries [(CACHE_NAME, c)] = c := by
  simp [mainEntries, lookupCache, List.find?]

theorem mainKeys_activate (st : CacheStorage) : mainKeys (activate st) = mainKeys st := by
  unfold mainKeys mainEntries
  rw [lookupCache_activate]
  simp

theorem mainKeys_open (st : CacheStorage) :
    mainKeys ((cachesOpen st CACHE_NAME).1) = mainKeys st := by
  unfold cachesOpen
  cases hl : lookupCache st CACHE_NAME with
  | some c => rfl
  | none =>
    show mainKeys (st ++ [(CACHE_NAME, [])]) = mainKeys st
    unfold mainKeys mainEntries
    rw [lookupCache_append_fresh [] hl, hl]
    rfl

theorem cacheKeys_open (st : CacheStorage) :
    cacheKeys ((cachesOpen st CACHE_NAME).2) = mainKeys st := by
  unfold cachesOpen mainKeys mainEntries
  cases hl : lookupCache st CACHE_NAME with
  | some c => rfl
  | none => rfl

/-- A message event never changes the main cache's keys. -/
theorem mainKeys_msg (st : CacheStorage) (d : Option String) (n : Nat) :
    mainKeys ((handleMessage st d n).2) = mainKeys st := by
  unfold handleMessage
  cases d with
  | none => rfl
  | some t =>
    by_cases h1 : t = "SKIP_WAITING"
    · simp [h1]
    · by_cases h2 : t = "GET_CACHE_STATUS"
      · by_cases h3 : n = 0 <;> simp [h1, h2, h3, mainKeys_open]
      · simp [h1, h2]

theorem storeCache_cons (e : String × Cache) (rest : CacheStorage) (n : String) (c : Cache) :
    storeCache (e :: rest) n c =
      (if (e.1 == n) = true then (e.1, c) else e) :: storeCache rest n c := by
  simp [storeCache]

theorem lookupCache_storeCache_self {st : CacheStorage} {n : String} {c0 : Cache}
    (h : lookupCache st n = some c0) (c : Cache) :
    lookupCache (storeCache st n c) n = some c := by
  induction st with
  | nil => simp [lookupCache] at h
  | cons e rest ih =>
    rw [lookupCache_cons] at h
    rw [storeCache_cons]
    by_cases he : (e.1 == n) = true
    · rw [if_pos he, lookupCache_cons]
      simp [he]
    · rw [if_neg he] at h
      rw [if_neg he, lookupCache_cons, if_neg he]
      exact ih h

theorem lookupCache_open_isSome (st : CacheStorage) (n : String) :
    ∃ c, lookupCache ((cachesOpen st n).1) n = some c := by
  unfold cachesOpen
  cases hl : lookupCache st n with
  | some c => exact ⟨c, hl⟩
  | none => exact ⟨[], lookupCache_append_fresh [] hl⟩

theorem mem_cachePut_self (c : Cache) (u : String) (r : Response) :
    (u, r) ∈ cachePut c u r := by
  simp [cachePut]

theorem mainEntries_storagePut (st : CacheStorage) (u : String) (r : Response) :
    mainEntries (storagePut st CACHE_NAME u r) =
      cachePut ((cachesOpen st CACHE_NAME).2) u r := by
  unfold storagePut mainEntries
  obtain ⟨c0, hc0⟩ := lookupCache_open_isSome st CACHE_NAME
  rw [lookupCache_storeCache_self hc0]
  rfl

/-- When no cache matches a URL, no registered cache holds an entry for
it. -/
theorem not_mem_of_cachesMatch_none {url : String} {r : Response} :
    ∀ {st : CacheStorage}, cachesMatch st url = none →
      ∀ {n : String} {c : Cache}, lookupCache st n = some c → (url, r) ∉ c := by
  intro st
  induction st with
  | nil => intro _ n c hc; simp [lookupCache] at hc
  | cons e rest ih =>
    intro h n c hc
    obtain ⟨nm, ec⟩ := e
    unfold cachesMatch at h
    cases hm : cacheMatch ec url with
    | some x => rw [hm] at h; cases h
    | none =>
      rw [hm] at h
      rw [lookupCache_cons] at hc
      by_cases he : ((nm, ec).1 == n) = true
      · rw [if_pos he] at hc
        injection hc with hc
        subst hc
        intro hmem
        obtain ⟨x, hx⟩ := cacheMatch_isSome_of_mem hmem
        rw [hx] at hm
        cases hm
      · rw [if_neg he] at hc
        exact ih h hc

/-! ## Ghost write log (provenance of main-cache entries) -/

/-- Tag recording which handler wrote a URL into the main cache. -/
inductive WriteSource where
  | installWrite
  | fetchWrite
deriving DecidableEq, Repr

/-- The URLs newly present in the main cache after a step. -/
def newMainKeys (stOld stNew : CacheStorage) : List String :=
  (mainKeys stNew).filter (fun u => !((mainKeys stOld).contains u))

/-- The ghost write log of one event: a fetch event logs the URLs it
introduced into the main cache; other events log nothing. -/
def eventLog (origin : String) (st : CacheStorage) : Event → List (WriteSource × String)
  | .fetchEv net req =>
    (newMainKeys st ((handleFetch origin net st req).storage)).map
      (fun u => (WriteSource.fetchWrite, u))
  | .msgEv _ _ => []
  | .activateEv => []

/-- Reachability carrying the ghost log of main-cache writes. -/
inductive ReachableLog (origin : String) :
    CacheStorage → List (WriteSource × String) → Prop where
  | installed (net : Network) (st0 st1 : CacheStorage)
      (h0 : lookupCache st0 CACHE_NAME = none)
      (h1 : lookupCache st0 CACHE_OFFLINE = none)
      (hinst : install origin net st0 = some st1) :
      ReachableLog origin (activate st1)
        ((mainKeys st1).map (fun u => (WriteSource.installWrite, u)))
  | step (st : CacheStorage) (log : List (WriteSource × String)) (e : Event)
      (h : ReachableLog origin st log) :
      ReachableLog origin (stepState origin st e) (log ++ eventLog origin st e)

/-- Every URL in the main cache was logged as written by install or by a
fetch event. -/
theorem reachableLog_keys_logged {origin : String} {st : CacheStorage}
    {log : List (WriteSource × String)} (h : ReachableLog origin st log) :
    ∀ u ∈ mainKeys st,
      (WriteSource.installWrite, u) ∈ log ∨ (WriteSource.fetchWrite, u) ∈ log := by
  induction h with
  | installed net st0 st1 h0 h1 hinst =>
    intro u hu
    rw [mainKeys_activate] at hu
    exact Or.inl (List.mem_map.mpr ⟨u, hu, rfl⟩)
  | step st log e h ih =>
    intro u hu
    by_cases hold : u ∈ mainKeys st
    · rcases ih u hold with h1 | h1
      · exact Or.inl (List.mem_append_left _ h1)
      · exact Or.inr (List.mem_append_left _ h1)
    · cases e with
      | fetchEv net req =>
        right
        apply List.mem_append_right
        simp only [eventLog, List.mem_map]
        refine ⟨u, ?_, rfl⟩
        simp only [newMainKeys, List.mem_filter]
        refine ⟨hu, ?_⟩
        simp [hold]
      | msgEv d n =>
        exfalso
        apply hold
        have hms : mainKeys (stepState origin st (Event.msgEv d n)) = mainKeys st :=
          mainKeys_msg st d n
        rwa [hms] at hu
      | activateEv =>
        exfalso
        apply hold
        have has : mainKeys (stepState origin st Event.activateEv) = mainKeys st :=
          mainKeys_activate st
        rwa [has] at hu

/-! ## Concrete example states -/

/-- A network serving a plain 200 response for every URL. -/
def netAll : Network := fun _ => some ⟨200, "basic", "body"⟩

/-- The storage produced by a successful install of this worker into an
empty storage over `netAll`, with origin `https://app.example`. -/
def installedStorage : CacheStorage :=
  [(CACHE_NAME,
    [("https://app.example/comensales.html", ⟨200, "basic", "body"⟩),
     ("https://app.example/manifest.json", ⟨200, "basic", "body"⟩),
     (FONT_URL, ⟨200, "basic", "body"⟩)])]

/-- The ghost log of that installation. -/
def installLog : List (WriteSource × String) :=
  [(WriteSource.installWrite, "https://app.example/comensales.html"),
   (WriteSource.installWrite, "https://app.example/manifest.json"),
   (WriteSource.installWrite, FONT_URL)]

/-- The activation example of the spec: the current cache plus two
obsolete ones. -/
def exampleOldStorage : CacheStorage :=
  [(CACHE_NAME, [("https://app.example/comensales.html", ⟨200, "basic", "page"⟩)]),
   ("old-v0", []), ("other", [])]

/-- A one-entry storage used for cache-hit examples. -/
def hitStorage : CacheStorage :=
  [(CACHE_NAME, [("https://app.example/comensales.html", ⟨200, "basic", "page"⟩)])]

/-- A URL on a foreign host that embeds a font host name in its path. -/
def evilGapisURL : String := "https://evil.example/fonts.googleapis.com/steal"

/-- A second foreign-host URL embedding the other font host name. -/
def evilGstaticURL : String := "https://evil.example/fonts.gstatic.com/x.woff2"

/-! ## Claims -/

/-- C4: activation deletes exactly those existing caches whose name is
neither the current main cache name nor the reserved offline-cache name,
leaving those two (when present) untouched; starting from
`{current, "old-v0", "other"}`, exactly `{current}` remains. -/
theorem sw_C4_activate_deletes_exactly_unprotected :
    (∀ (st : CacheStorage) (n : String),
      lookupCache (activate st) n =
        if (n == CACHE_NAME || n == CACHE_OFFLINE) = true then lookupCache st n
        else none) ∧
    activate exampleOldStorage =
      [(CACHE_NAME, [("https://app.example/comensales.html", ⟨200, "basic", "page"⟩)])] :=
  ⟨lookupCache_activate, by rfl⟩

/-- C10: a `GET_CACHE_STATUS` message carrying no reply port makes the
handler's continuation dereference `event.ports[0]` and throw, rather
than silently ignoring the message. -/
theorem sw_C10_cache_status_without_port_throws :
    ∀ st : CacheStorage,
      (handleMessage st (some "GET_CACHE_STATUS") 0).1 = MsgOutcome.threw := by
  intro st
  simp [handleMessage]

/-- C5: a GET http(s) request present in cache is answered with the
previously cached response, and the value returned to the caller is the
same for every network, so the concurrent refresh fetch never affects
it. -/
theorem sw_C5_hit_returns_cached_network_independent :
    ∀ (origin : String) (net net2 : Network) (st : CacheStorage) (req : Request)
      (r : Response),
      req.method = "GET" → strStartsWith req.url "http" = true →
      cachesMatch st req.url = some r →
      (handleFetch origin net st req).outcome = FetchOutcome.respond (some r) ∧
      (handleFetch origin net st req).outcome = (handleFetch origin net2 st req).outcome := by
  intro origin net net2 st req r hm hh hcm
  constructor
  · simp [handleFetch, hm, hh, hcm]
  · simp [handleFetch, hm, hh, hcm]

theorem sw_C5_witness :
    ("GET" = "GET" ∧
      strStartsWith "https://app.example/comensales.html" "http" = true ∧
      cachesMatch hitStorage "https://app.example/comensales.html" =
        some ⟨200, "basic", "page"⟩) ∧
    (handleFetch "https://app.example" (fun _ => none) hitStorage
        ⟨"GET", "https://app.example/comensales.html"⟩).outcome =
      FetchOutcome.respond (some ⟨200, "basic", "page"⟩) ∧
    (handleFetch "https://app.example" (fun _ => none) hitStorage
        ⟨"GET", "https://app.example/comensales.html"⟩).outcome =
      (handleFetch "https://app.example" (fun _ => some ⟨200, "basic", "fresh"⟩) hitStorage
        ⟨"GET", "https://app.example/comensales.html"⟩).outcome :=
  ⟨⟨rfl, by decide, by rfl⟩,
    sw_C5_hit_returns_cached_network_independent "https://app.example" (fun _ => none)
      (fun _ => some ⟨200, "basic", "fresh"⟩) hitStorage
      ⟨"GET", "https://app.example/comensales.html"⟩ ⟨200, "basic", "page"⟩
      rfl (by decide) (by rfl)⟩

/-- C7: a GET http(s) request missing from cache whose network fetch
completes with a non-200 status or a network-error-typed response is
returned verbatim, with no cache write and no offline-fallback
substitution. -/
theorem sw_C7_invalid_miss_passed_through_uncached :
    ∀ (origin : String) (net : Network) (st : CacheStorage) (req : Request)
      (nr : Response),
      req.method = "GET" → strStartsWith req.url "http" = true →
      cachesMatch st req.url = none → net req.url = some nr →
      (nr.status ≠ 200 ∨ nr.rtype = "error") →
      handleFetch origin net st req = ⟨FetchOutcome.respond (some nr), st⟩ := by
  intro origin net st req nr hm hh hcm hn hbad
  simp [handleFetch, hm, hh, hcm, hn, hbad]

theorem sw_C7_witness :
    ("GET" = "GET" ∧ strStartsWith "https://app.example/miss" "http" = true ∧
      cachesMatch hitStorage "https://app.example/miss" = none ∧
      ((404 : Nat) ≠ 200 ∨ "basic" = "error")) ∧
    handleFetch "https://app.example" (fun _ => some ⟨404, "basic", "no"⟩) hitStorage
        ⟨"GET", "https://app.example/miss"⟩ =
      ⟨FetchOutcome.respond (some ⟨404, "basic", "no"⟩), hitStorage⟩ :=
  ⟨⟨rfl, by decide, by rfl, Or.inl (by decide)⟩,
    sw_C7_invalid_miss_passed_through_uncached "https://app.example"
      (fun _ => some ⟨404, "basic", "no"⟩) hitStorage ⟨"GET", "https://app.example/miss"⟩
      ⟨404, "basic", "no"⟩ rfl (by decide) (by rfl) rfl (Or.inl (by decide))⟩

/-- C8 (amended): a request whose method is not GET, or whose URL does
not start with the string `"http"`, passes through unintercepted with
the cache storage unchanged. -/
theorem sw_C8_nonget_or_nonhttp_passthrough :
    ∀ (origin : String) (net : Network) (st : CacheStorage) (req : Request),
      (req.method ≠ "GET" ∨ strStartsWith req.url "http" = false) →
      handleFetch origin net st req = ⟨FetchOutcome.passThrough, st⟩ := by
  intro origin net st req h
  rcases h with h | h
  · simp [handleFetch, h]
  · simp [handleFetch, h]

theorem sw_C8_witness :
    (("POST" : String) ≠ "GET" ∨ strStartsWith "https://app.example/x" "http" = false) ∧
    handleFetch "https://app.example" (fun _ => none) hitStorage
        ⟨"POST", "https://app.example/x"⟩ =
      ⟨FetchOutcome.passThrough, hitStorage⟩ :=
  ⟨Or.inl (by decide),
    sw_C8_nonget_or_nonhttp_passthrough "https://app.example" (fun _ => none) hitStorage
      ⟨"POST", "https://app.example/x"⟩ (Or.inl (by decide))⟩

/-- C8 counterexample: a GET request whose URL scheme is neither `http`
nor `https` but which starts with the string `"http"` is intercepted
(the guard is a string-prefix test, not a scheme test), contradicting
"the interceptor performs no action at all" for non-http/https
schemes. -/
theorem sw_C8_counterexample :
    schemeOf "httpx://evil.example/a" ≠ "http" ∧
    schemeOf "httpx://evil.example/a" ≠ "https" ∧
    (handleFetch "https://app.example" (fun _ => none) []
        ⟨"GET", "httpx://evil.example/a"⟩).outcome ≠ FetchOutcome.passThrough :=
  ⟨by decide, by decide, by decide⟩

/-- C2: the fixed asset list declares `./icon-192.png` as an asset to
cache on install, but a successful installation (here: over a network
serving 200 for every URL) leaves the resolved icon URL out of the main
cache — the install handler hardcodes only two of the local assets. -/
theorem sw_C2_icons_never_precached :
    "./icon-192.png" ∈ ASSETS_TO_CACHE ∧
    resolveURL "https://app.example" "./icon-192.png" =
      "https://app.example/icon-192.png" ∧
    install "https://app.example" netAll [] = some installedStorage ∧
    "https://app.example/icon-192.png" ∉ mainKeys installedStorage :=
  ⟨by decide, by rfl, by rfl, by decide⟩

/-- C3 (amended): on a miss answered by a 200, non-error-typed network
response, the response is returned to the caller, and it is stored in
the main cache if and only if the URL passes the source's substring
test `shouldCache` (URL contains the origin, `fonts.googleapis.com` or
`fonts.gstatic.com` as a substring). -/
theorem sw_C3_miss_200_cached_iff_includes :
    ∀ (origin : String) (net : Network) (st : CacheStorage) (req : Request)
      (nr : Response),
      req.method = "GET" → strStartsWith req.url "http" = true →
      cachesMatch st req.url = none → net req.url = some nr →
      nr.status = 200 → nr.rtype ≠ "error" →
      (handleFetch origin net st req).outcome = FetchOutcome.respond (some nr) ∧
      ((req.url, nr) ∈ mainEntries ((handleFetch origin net st req).storage) ↔
        shouldCache origin req.url = true) := by
  intro origin net st req nr hm hh hcm hn h200 herr
  have hbad : ¬(nr.status ≠ 200 ∨ nr.rtype = "error") := by
    simp [h200, herr]
  by_cases hsc : shouldCache origin req.url = true
  · have hred : handleFetch origin net st req =
        ⟨FetchOutcome.respond (some nr), storagePut st CACHE_NAME req.url nr⟩ := by
      simp [handleFetch, hm, hh, hcm, hn, hbad, hsc]
    rw [hred]
    refine ⟨rfl, ?_⟩
    constructor
    · intro _; exact hsc
    · intro _
      rw [mainEntries_storagePut]
      exact mem_cachePut_self _ _ _
  · have hred : handleFetch origin net st req = ⟨FetchOutcome.respond (some nr), st⟩ := by
      simp [handleFetch, hm, hh, hcm, hn, hbad, hsc]
    rw [hred]
    refine ⟨rfl, ?_⟩
    have hnotmem : (req.url, nr) ∉ mainEntries st := by
      intro hmem
      unfold mainEntries at hmem
      cases hl : lookupCache st CACHE_NAME with
      | none => rw [hl] at hmem; cases hmem
      | some c =>
        rw [hl] at hmem
        exact not_mem_of_cachesMatch_none hcm hl hmem
    exact ⟨fun hmem => absurd hmem hnotmem, fun hscu => absurd hscu hsc⟩

theorem sw_C3_witness :
    (("GET" : String) = "GET" ∧
      strStartsWith "https://app.example/data.json" "http" = true ∧
      cachesMatch hitStorage "https://app.example/data.json" = none ∧
      (200 : Nat) = 200 ∧ ("basic" : String) ≠ "error") ∧
    (handleFetch "https://app.example" (fun _ => some ⟨200, "basic", "d"⟩) hitStorage
        ⟨"GET", "https://app.example/data.json"⟩).outcome =
      FetchOutcome.respond (some ⟨200, "basic", "d"⟩) ∧
    (("https://app.example/data.json", (⟨200, "basic", "d"⟩ : Response)) ∈ mainEntries
        ((handleFetch "https://app.example" (fun _ => some ⟨200, "basic", "d"⟩) hitStorage
          ⟨"GET", "https://app.example/data.json"⟩).storage) ↔
      shouldCache "https://app.example" "https://app.example/data.json" = true) := by
  refine ⟨⟨rfl, by decide, by rfl, rfl, by decide⟩, ?_, ?_⟩
  · exact (sw_C3_miss_200_cached_iff_includes "https://app.example"
      (fun _ => some ⟨200, "basic", "d"⟩) hitStorage ⟨"GET", "https://app.example/data.json"⟩
      ⟨200, "basic", "d"⟩ rfl (by decide) (by rfl) rfl rfl (by decide)).1
  · exact (sw_C3_miss_200_cached_iff_includes "https://app.example"
      (fun _ => some ⟨200, "basic", "d"⟩) hitStorage ⟨"GET", "https://app.example/data.json"⟩
      ⟨200, "basic", "d"⟩ rfl (by decide) (by rfl) rfl rfl (by decide)).2

/-- C3 counterexample: a miss on a foreign-host URL that merely embeds
`fonts.googleapis.com` in its path is stored into the main cache,
although it belongs neither to the worker's origin nor to an approved
font host — caching is a substring test, not an origin/host test. -/
theorem sw_C3_counterexample :
    cachesMatch installedStorage evilGapisURL = none ∧
    (evilGapisURL, (⟨200, "basic", "s"⟩ : Response)) ∈ mainEntries
      ((handleFetch "https://app.example" (fun _ => some ⟨200, "basic", "s"⟩)
        installedStorage ⟨"GET", evilGapisURL⟩).storage) ∧
    belongsToApprovedOrigin "https://app.example" evilGapisURL = false :=
  ⟨by rfl, by decide, by decide⟩

/-- C1: in every reachable state, an intercepted GET request is answered
with some response (never an exception), and on a cache miss with the
network unreachable the stored offline-fallback document is returned. -/
theorem sw_C1_always_resolves_fallback_on_total_failure :
    ∀ (origin : String) (st : CacheStorage) (net : Network) (req : Request),
      Reachable origin st →
      req.method = "GET" → strStartsWith req.url "http" = true →
      (∃ r, (handleFetch origin net st req).outcome = FetchOutcome.respond (some r)) ∧
      (cachesMatch st req.url = none → net req.url = none →
        ∃ d, cachesMatch st (resolveURL origin OFFLINE_FALLBACK) = some d ∧
          (handleFetch origin net st req).outcome = FetchOutcome.respond (some d)) := by
  intro origin st net req hreach hm hh
  obtain ⟨c, rfl, hfb, hsc⟩ := reachable_invar hreach
  obtain ⟨x, hx⟩ := hfb
  obtain ⟨d, hd⟩ := cacheMatch_isSome_of_mem hx
  have hfmatch : cachesMatch [(CACHE_NAME, c)] (resolveURL origin OFFLINE_FALLBACK) =
      some d := by
    rw [cachesMatch_single]; exact hd
  constructor
  · cases hcm : cacheMatch c req.url with
    | some cached => exact ⟨cached, by simp [handleFetch, hm, hh, cachesMatch_single, hcm]⟩
    | none =>
      cases hn : net req.url with
      | some nr =>
        refine ⟨nr, ?_⟩
        by_cases hbad : nr.status ≠ 200 ∨ nr.rtype = "error"
        · simp [handleFetch, hm, hh, cachesMatch_single, hcm, hn, hbad]
        · by_cases hscu : shouldCache origin req.url = true
          · simp [handleFetch, hm, hh, cachesMatch_single, hcm, hn, hbad, hscu]
          · simp [handleFetch, hm, hh, cachesMatch_single, hcm, hn, hbad, hscu]
      | none =>
        refine ⟨d, ?_⟩
        simp [handleFetch, hm, hh, cachesMatch_single, hcm, hn, hd]
  · intro hcm hn
    rw [cachesMatch_single] at hcm
    refine ⟨d, hfmatch, ?_⟩
    simp [handleFetch, hm, hh, cachesMatch_single, hcm, hn, hd]

theorem sw_C1_witness :
    Reachable "https://app.example" installedStorage ∧
    ∃ d, cachesMatch installedStorage
        (resolveURL "https://app.example" OFFLINE_FALLBACK) = some d ∧
      (handleFetch "https://app.example" (fun _ => none) installedStorage
        ⟨"GET", "https://app.example/nope"⟩).outcome = FetchOutcome.respond (some d) := by
  have hre : Reachable "https://app.example" installedStorage :=
    Reachable.installed netAll [] installedStorage rfl rfl rfl
  refine ⟨hre, ?_⟩
  exact (sw_C1_always_resolves_fallback_on_total_failure "https://app.example"
    installedStorage (fun _ => none) ⟨"GET", "https://app.example/nope"⟩ hre rfl
    (by decide)).2 (by rfl) rfl

/-- C6 (amended): over any reachable state, every entry the fetch
handler adds to the main cache — including through the background
stale-while-revalidate refresh — comes from a network fetch that
resolved with status 200 for that URL, and the URL passes the source's
`shouldCache` substring policy. -/
theorem sw_C6_fetch_writes_are_200_and_shouldCache :
    ∀ (origin : String) (st : CacheStorage) (net : Network) (req : Request),
      Reachable origin st →
      ∀ (u : String) (r : Response),
        (u, r) ∈ mainEntries ((handleFetch origin net st req).storage) →
        (u, r) ∈ mainEntries st ∨
          (net u = some r ∧ r.status = 200 ∧ shouldCache origin u = true) := by
  intro origin st net req hreach u r hmem
  obtain ⟨c, rfl, hfb, hsc⟩ := reachable_invar hreach
  rw [mainEntries_single]
  by_cases hm : req.method = "GET"
  case neg =>
    have hst : (handleFetch origin net [(CACHE_NAME, c)] req).storage =
        [(CACHE_NAME, c)] := by
      simp [handleFetch, hm]
    rw [hst, mainEntries_single] at hmem
    exact Or.inl hmem
  by_cases hh : strStartsWith req.url "http" = true
  case neg =>
    have hst : (handleFetch origin net [(CACHE_NAME, c)] req).storage =
        [(CACHE_NAME, c)] := by
      simp [handleFetch, hm, hh]
    rw [hst, mainEntries_single] at hmem
    exact Or.inl hmem
  cases hcm : cacheMatch c req.url with
  | some cached =>
    cases hn : net req.url with
    | none =>
      have hst : (handleFetch origin net [(CACHE_NAME, c)] req).storage =
          [(CACHE_NAME, c)] := by
        simp [handleFetch, hm, hh, cachesMatch_single, hcm, hn]
      rw [hst, mainEntries_single] at hmem
      exact Or.inl hmem
    | some nr =>
      by_cases hs200 : (nr.status == 200) = true
      · have hst : (handleFetch origin net [(CACHE_NAME, c)] req).storage =
            [(CACHE_NAME, cachePut c req.url nr)] := by
          simp [handleFetch, hm, hh, cachesMatch_single, hcm, hn, hs200, storagePut_single]
        rw [hst, mainEntries_single] at hmem
        rcases mem_cachePut hmem with h2 | h2
        · exact Or.inl h2
        · rw [Prod.mk.injEq] at h2
          obtain ⟨hu, hr⟩ := h2
          subst hu; subst hr
          exact Or.inr ⟨hn, by simpa using hs200, hsc _ (mem_entry_of_cacheMatch hcm)⟩
      · have hst : (handleFetch origin net [(CACHE_NAME, c)] req).storage =
            [(CACHE_NAME, c)] := by
          simp [handleFetch, hm, hh, cachesMatch_single, hcm, hn, hs200]
        rw [hst, mainEntries_single] at hmem
        exact Or.inl hmem
  | none =>
    cases hn : net req.url with
    | none =>
      have hst : (handleFetch origin net [(CACHE_NAME, c)] req).storage =
          [(CACHE_NAME, c)] := by
        simp [handleFetch, hm, hh, cachesMatch_single, hcm, hn]
      rw [hst, mainEntries_single] at hmem
      exact Or.inl hmem
    | some nr =>
      by_cases hbad : nr.status ≠ 200 ∨ nr.rtype = "error"
      · have hst : (handleFetch origin net [(CACHE_NAME, c)] req).storage =
            [(CACHE_NAME, c)] := by
          simp [handleFetch, hm, hh, cachesMatch_single, hcm, hn, hbad]
        rw [hst, mainEntries_single] at hmem
        exact Or.inl hmem
      · by_cases hscu : shouldCache origin req.url = true
        · have hst : (handleFetch origin net [(CACHE_NAME, c)] req).storage =
              [(CACHE_NAME, cachePut c req.url nr)] := by
            simp [handleFetch, hm, hh, cachesMatch_single, hcm, hn, hbad, hscu,
              storagePut_single]
          rw [hst, mainEntries_single] at hmem
          rcases mem_cachePut hmem with h2 | h2
          · exact Or.inl h2
          · rw [Prod.mk.injEq] at h2
            obtain ⟨hu, hr⟩ := h2
            subst hu; subst hr
            have h200 : r.status = 200 := by
              by_contra hne
              exact hbad (Or.inl hne)
            exact Or.inr ⟨hn, h200, hscu⟩
        · have hst : (handleFetch origin net [(CACHE_NAME, c)] req).storage =
              [(CACHE_NAME, c)] := by
            simp [handleFetch, hm, hh, cachesMatch_single, hcm, hn, hbad, hscu]
          rw [hst, mainEntries_single] at hmem
          exact Or.inl hmem

theorem sw_C6_witness :
    Reachable "https://app.example" installedStorage ∧
    ("https://app.example/extra", (⟨200, "basic", "body"⟩ : Response)) ∈ mainEntries
      ((handleFetch "https://app.example" netAll installedStorage
        ⟨"GET", "https://app.example/extra"⟩).storage) ∧
    (("https://app.example/extra", (⟨200, "basic", "body"⟩ : Response)) ∈
        mainEntries installedStorage ∨
      (netAll "https://app.example/extra" = some ⟨200, "basic", "body"⟩ ∧
        (⟨200, "basic", "body"⟩ : Response).status = 200 ∧
        shouldCache "https://app.example" "https://app.example/extra" = true)) := by
  have hre : Reachable "https://app.example" installedStorage :=
    Reachable.installed netAll [] installedStorage rfl rfl rfl
  refine ⟨hre, by decide, ?_⟩
  exact sw_C6_fetch_writes_are_200_and_shouldCache "https://app.example" installedStorage
    netAll ⟨"GET", "https://app.example/extra"⟩ hre "https://app.example/extra"
    ⟨200, "basic", "body"⟩ (by decide)

/-- C6 counterexample: after install (a reachable state), a fetch of a
foreign-host URL embedding `fonts.gstatic.com` in its path adds a new
entry to the main cache although that URL belongs neither to the
worker's origin nor to an approved font host, so the claim's
origin/host reading of the policy fails. -/
theorem sw_C6_counterexample :
    Reachable "https://app.example" installedStorage ∧
    (evilGstaticURL, (⟨200, "basic", "f"⟩ : Response)) ∈ mainEntries
      ((handleFetch "https://app.example" (fun _ => some ⟨200, "basic", "f"⟩)
        installedStorage ⟨"GET", evilGstaticURL⟩).storage) ∧
    (evilGstaticURL, (⟨200, "basic", "f"⟩ : Response)) ∉ mainEntries installedStorage ∧
    belongsToApprovedOrigin "https://app.example" evilGstaticURL = false :=
  ⟨Reachable.installed netAll [] installedStorage rfl rfl rfl, by decide, by decide,
    by decide⟩

/-- C9: a `GET_CACHE_STATUS` message with a reply port is answered with
`{cached, count}` where `cached` lists the main cache's keys and `count`
is its length, and every listed URL was logged as written by install or
by fetch caching. -/
theorem sw_C9_cache_status_reply :
    ∀ (origin : String) (st : CacheStorage) (log : List (WriteSource × String)) (n : Nat),
      ReachableLog origin st log → n ≠ 0 →
      (handleMessage st (some "GET_CACHE_STATUS") n).1 =
        MsgOutcome.replied ⟨mainKeys st, (mainKeys st).length⟩ ∧
      ∀ u ∈ mainKeys st,
        (WriteSource.installWrite, u) ∈ log ∨ (WriteSource.fetchWrite, u) ∈ log := by
  intro origin st log n h hn
  constructor
  · simp [handleMessage, hn, cacheKeys_open]
  · exact reachableLog_keys_logged h

theorem sw_C9_witness :
    (1 : Nat) ≠ 0 ∧
    (handleMessage installedStorage (some "GET_CACHE_STATUS") 1).1 =
      MsgOutcome.replied ⟨mainKeys installedStorage, (mainKeys installedStorage).length⟩ ∧
    ∀ u ∈ mainKeys installedStorage,
      (WriteSource.installWrite, u) ∈ installLog ∨
        (WriteSource.fetchWrite, u) ∈ installLog := by
  have h := sw_C9_cache_status_reply "https://app.example" installedStorage installLog 1
    (ReachableLog.installed netAll [] installedStorage rfl rfl rfl) (by decide)
  exact ⟨by decide, h.1, h.2⟩

end SW
